import Mathlib

/-!
Shallow embedding of `src/etl_pipeline.py`, a small batch ETL pipeline for
bank transactions (extract CSV → transform/aggregate → load JSON).

Modelling conventions:
* Python `float` amounts are idealised as rationals (`ℚ`); the pipeline only
  adds, divides and formats them.
* `datetime.strptime(ts, "%Y-%m-%d %H:%M:%S")` is embedded as a character-level
  parser reproducing CPython's `_strptime` regexes: `%Y` matches exactly four
  digits, `%m`/`%d`/`%H`/`%M`/`%S` match one or two digits with the usual
  alternations (month 1..12, day 1..31, hour 0..23, minute 0..59, second up to
  61 at the regex level), a literal whitespace in the format matches one or
  more whitespace characters, trailing unconverted data is an error, and the
  subsequent `datetime` construction rejects out-of-range days and seconds 60
  and 61.  Digits and whitespace are modelled over ASCII.
* `dict` accumulation (`defaultdict(int)`) is modelled as an insertion-ordered
  association list, matching Python's insertion-ordered dictionaries, and
  Python stable `sorted(..., key=count, reverse=True)` as a stable insertion sort
  with the corresponding comparison.
* `transform` returns a bare `[]` on empty input and a pair otherwise; this
  sum-shaped result is modelled by the inductive `TransformResult`.
* `main`'s control flow over extraction outcomes and file writing is modelled
  by `mainModel`, with the I/O outcomes as explicit parameters.
-/

attribute [local semireducible] Rat.mul Rat.add Rat.sub Rat.inv

namespace ETL

/-- The ten decimal digit characters; used to model Python's decimal
rendering of numbers. -/
def digitChar10 : Nat → Char
  | 0 => '0'
  | 1 => '1'
  | 2 => '2'
  | 3 => '3'
  | 4 => '4'
  | 5 => '5'
  | 6 => '6'
  | 7 => '7'
  | 8 => '8'
  | 9 => '9'
  | _ => '*'

/-- Numeric value of an ASCII digit character. -/
def digitVal (c : Char) : Nat := c.toNat - 48

/-- ASCII whitespace, as matched by `\s` in the `_strptime` regex (a literal
space in the format pattern matches one or more of these). -/
def isPySpace (c : Char) : Bool :=
  c == ' ' || c == '\t' || c == '\n' || c == '\r' || c == '\x0b' || c == '\x0c'

/-- Fuel-driven digit rendering; the fuel only bounds the recursion depth
and `natDigits` always supplies enough. -/
def natDigitsFuel : Nat → Nat → List Char
  | 0, _ => []
  | fuel + 1, n =>
      if n < 10 then [digitChar10 n]
      else natDigitsFuel fuel (n / 10) ++ [digitChar10 (n % 10)]

/-- Decimal digit string of a natural number (Python's `str`/`%d` rendering,
no sign, no padding). -/
def natDigits (n : Nat) : List Char := natDigitsFuel (n + 1) n

/-- Exactly-two-digit zero-padded rendering, for values below 100 (used by
`%m`, `%d`, `%H`, `%M`, `%S` and the cents of the currency format). -/
def twoDigChars (n : Nat) : List Char := [digitChar10 (n / 10), digitChar10 (n % 10)]

/-- Zero-padded four-digit rendering of a year (`%Y` per the Python
documentation), for values up to 9999. -/
def pad4 (n : Nat) : List Char :=
  [digitChar10 (n / 1000), digitChar10 (n / 100 % 10), digitChar10 (n / 10 % 10), digitChar10 (n % 10)]

/-- Round to the nearest integer, ties to even — the rounding used by
Python's fixed-point float formatting. -/
def roundHalfEven (q : ℚ) : ℤ :=
  let f : ℤ := q.floor
  if q - (f : ℚ) < 1 / 2 then f
  else if 1 / 2 < q - (f : ℚ) then f + 1
  else if f % 2 = 0 then f else f + 1

/-- Python's `f"{x:.2f}"` on the idealised rational amount: sign, integer
part, a point, and exactly two (zero-padded) fractional digits, after
rounding half-to-even at the second decimal. -/
def formatFixed2 (q : ℚ) : String :=
  let n : Nat := (roundHalfEven (|q| * 100)).toNat
  let body : List Char := natDigits (n / 100) ++ '.' :: twoDigChars (n % 100)
  if q < 0 then ⟨'-' :: body⟩ else ⟨body⟩

/-- A parsed `datetime` value (only the fields the pipeline uses). -/
structure DateTime where
  year : Nat
  month : Nat
  day : Nat
  hour : Nat
  minute : Nat
  second : Nat
deriving DecidableEq

/-- Gregorian leap-year rule, as in Python's `calendar`/`datetime`. -/
def isLeapYear (y : Nat) : Bool :=
  y % 4 == 0 && (y % 100 != 0 || y % 400 == 0)

/-- Number of days in a month, as validated by `datetime.__new__`. -/
def daysInMonth (y m : Nat) : Nat :=
  if m = 2 then (if isLeapYear y then 29 else 28)
  else if m = 4 ∨ m = 6 ∨ m = 9 ∨ m = 11 then 30
  else 31

/-- Head-is-a-digit test, used to reject digit runs longer than two (the
regex alternations for two-digit fields never match a third digit, and a
following literal cannot match a digit). -/
def headIsDigit : List Char → Bool
  | [] => false
  | c :: _ => c.isDigit

/-- One-or-two-digit numeric field of `_strptime`'s regex: a single digit at
least `lo` (`[1-9]` or `\d`), or two digits whose value lies in `lo..hi`;
a run of three or more digits fails. -/
def parseNum2 (lo hi : Nat) : List Char → Option (Nat × List Char)
  | [] => none
  | [c1] =>
      if c1.isDigit && decide (lo ≤ digitVal c1) then some (digitVal c1, []) else none
  | c1 :: c2 :: rest =>
      if c1.isDigit then
        if c2.isDigit then
          if headIsDigit rest then none
          else if lo ≤ 10 * digitVal c1 + digitVal c2 ∧ 10 * digitVal c1 + digitVal c2 ≤ hi then
            some (10 * digitVal c1 + digitVal c2, rest)
          else none
        else
          if lo ≤ digitVal c1 then some (digitVal c1, c2 :: rest) else none
      else none

/-- `%Y`: exactly four digits (`\d\d\d\d`). -/
def parseYear : List Char → Option (Nat × List Char)
  | c1 :: c2 :: c3 :: c4 :: rest =>
      if c1.isDigit && c2.isDigit && c3.isDigit && c4.isDigit then
        some (1000 * digitVal c1 + 100 * digitVal c2 + 10 * digitVal c3 + digitVal c4, rest)
      else none
  | _ => none

/-- Consume the matched literal character of the format pattern. -/
def expectChar (c : Char) : List Char → Option (List Char)
  | d :: rest => if d = c then some rest else none
  | [] => none

/-- Drop leading whitespace. -/
def skipSpaces : List Char → List Char
  | [] => []
  | c :: rest => if isPySpace c then skipSpaces rest else c :: rest

/-- A literal space in the format matches one or more whitespace characters. -/
def skipSpaces1 : List Char → Option (List Char)
  | [] => none
  | c :: rest => if isPySpace c then some (skipSpaces rest) else none

/-- `datetime.strptime(s, "%Y-%m-%d %H:%M:%S")`, returning `none` exactly
when CPython raises `ValueError` (regex mismatch, unconverted trailing data,
or the `datetime` constructor rejecting the matched values). -/
def strptimeTs (s : String) : Option DateTime := do
  let py ← parseYear s.data
  let cs1 ← expectChar '-' py.2
  let pm ← parseNum2 1 12 cs1
  let cs2 ← expectChar '-' pm.2
  let pd ← parseNum2 1 31 cs2
  let cs3 ← skipSpaces1 pd.2
  let ph ← parseNum2 0 23 cs3
  let cs4 ← expectChar ':' ph.2
  let pmi ← parseNum2 0 59 cs4
  let cs5 ← expectChar ':' pmi.2
  let ps ← parseNum2 0 61 cs5
  if ps.2.isEmpty ∧ 1 ≤ py.1 ∧ pd.1 ≤ daysInMonth py.1 pm.1 ∧ ps.1 ≤ 59 then
    some ⟨py.1, pm.1, pd.1, ph.1, pmi.1, ps.1⟩
  else none

/-- `dt.strftime("%Y-%m-%d")`. -/
def fmtDate (dt : DateTime) : String :=
  ⟨pad4 dt.year ++ '-' :: twoDigChars dt.month ++ '-' :: twoDigChars dt.day⟩

/-- `dt.strftime("%H:%M:%S")`. -/
def fmtTime (dt : DateTime) : String :=
  ⟨twoDigChars dt.hour ++ ':' :: twoDigChars dt.minute ++ ':' :: twoDigChars dt.second⟩

/-- Days in all years before year `y` (proleptic Gregorian, as in
`datetime.toordinal`). -/
def daysBeforeYear (y : Nat) : Nat :=
  365 * (y - 1) + (y - 1) / 4 - (y - 1) / 100 + (y - 1) / 400

/-- Days in the months of year `y` strictly before month `m`. -/
def daysBeforeMonth (y m : Nat) : Nat :=
  ((List.range (m - 1)).map (fun i => daysInMonth y (i + 1))).sum

/-- `datetime.toordinal`: day number with `0001-01-01` as day 1. -/
def toOrdinal (dt : DateTime) : Nat :=
  daysBeforeYear dt.year + daysBeforeMonth dt.year dt.month + dt.day

/-- The full weekday names produced by `%A` in the C locale. -/
def dayNames : List String :=
  ["Monday", "Tuesday", "Wednesday", "Thursday", "Friday", "Saturday", "Sunday"]

/-- `dt.weekday()`: 0 for Monday (day 1, `0001-01-01`, was a Monday). -/
def weekdayIndex (dt : DateTime) : Nat := (toOrdinal dt + 6) % 7

/-- `dt.strftime("%A")`: full weekday name. -/
def strftimeA (dt : DateTime) : String := dayNames.getD (weekdayIndex dt) ""

/-- A raw transaction as produced by `extract`: the four CSV fields with
`amount` already coerced to a number. -/
structure RawRecord where
  sender : String
  recipient : String
  amount : ℚ
  timestamp : String
deriving DecidableEq

/-- A transformed transaction: the original four fields plus the four fields
added by `transform`. -/
structure EnrichedRecord where
  sender : String
  recipient : String
  amount : ℚ
  timestamp : String
  amount_usd : String
  date : String
  time : String
  day_of_week : String
deriving DecidableEq

/-- The per-record body of `transform`'s loop: add `amount_usd`, and either
the three derived date/time fields on a successful parse or `"Unknown"` for
all three on `ValueError`. -/
def enrich (t : RawRecord) : EnrichedRecord :=
  match strptimeTs t.timestamp with
  | some dt =>
      ⟨t.sender, t.recipient, t.amount, t.timestamp,
        "$" ++ formatFixed2 t.amount, fmtDate dt, fmtTime dt, strftimeA dt⟩
  | none =>
      ⟨t.sender, t.recipient, t.amount, t.timestamp,
        "$" ++ formatFixed2 t.amount, "Unknown", "Unknown", "Unknown"⟩

/-- `counts[k] += 1` on a `defaultdict(int)`: increment in place if the key
is present, else append the key with count 1 (Python dicts preserve
insertion order). -/
def bump : List (String × Nat) → String → List (String × Nat)
  | [], k => [(k, 1)]
  | (k', n) :: rest, k =>
      if k' = k then (k', n + 1) :: rest else (k', n) :: bump rest k

/-- The loop state of `transform`: the output list and the three running
aggregates. -/
structure TState where
  transformed : List EnrichedRecord
  total_amount : ℚ
  sender_counts : List (String × Nat)
  recipient_counts : List (String × Nat)
deriving DecidableEq

/-- One iteration of `transform`'s `for` loop. -/
def step (st : TState) (t : RawRecord) : TState :=
  ⟨st.transformed ++ [enrich t],
    st.total_amount + t.amount,
    bump st.sender_counts t.sender,
    bump st.recipient_counts t.recipient⟩

/-- The whole `for` loop of `transform`. -/
def runLoop (ts : List RawRecord) : TState := ts.foldl step ⟨[], 0, [], []⟩

/-- Comparison used by `sorted(counts.items(), key=lambda x: x[1],
reverse=True)`: `a` may come before `b` iff `b`'s count is at most `a`'s. -/
def countGe (a b : String × Nat) : Prop := b.2 ≤ a.2

instance : DecidableRel countGe := fun a b => Nat.decLe b.2 a.2

instance : IsTotal (String × Nat) countGe := ⟨fun a b => Nat.le_total b.2 a.2⟩

instance : IsTrans (String × Nat) countGe := ⟨fun _ _ _ h1 h2 => Nat.le_trans h2 h1⟩

/-- Python's `sorted(..., key=lambda x: x[1], reverse=True)` is a stable
sort, descending by count; a stable sort for a total preorder is unique, so
any stable sorting algorithm models it exactly. -/
def sortedDesc (l : List (String × Nat)) : List (String × Nat) :=
  l.insertionSort countGe

/-- The summary statistics dictionary built by `transform` after the loop. -/
structure Summary where
  total_transactions : Nat
  total_amount : ℚ
  average_amount : ℚ
  top_senders : List (String × Nat)
  top_recipients : List (String × Nat)
deriving DecidableEq

/-- Build the summary from the final loop state, as in the source:
`average_amount` guards on a non-empty `transformed`, and the top-5 tables
take the first five entries of the stable descending sort. -/
def mkSummary (st : TState) : Summary :=
  ⟨st.transformed.length,
    st.total_amount,
    if st.transformed ≠ [] then st.total_amount / (st.transformed.length : ℚ) else 0,
    (sortedDesc st.sender_counts).take 5,
    (sortedDesc st.recipient_counts).take 5⟩

/-- `transform`'s result: a bare empty list for empty input, otherwise the
pair of the transformed list and the summary. -/
inductive TransformResult where
  | empty : TransformResult
  | ok : List EnrichedRecord → Summary → TransformResult
deriving DecidableEq

/-- `transform(transactions)`. -/
def transform (ts : List RawRecord) : TransformResult :=
  if ts = [] then .empty
  else
    let st := runLoop ts
    .ok st.transformed (mkSummary st)

/-- How `extract` finished: a successful read of some rows, a missing input
file, or any other exception during reading. -/
inductive ExtractOutcome where
  | ok : List RawRecord → ExtractOutcome
  | fileNotFound : ExtractOutcome
  | otherError : ExtractOutcome
deriving DecidableEq

/-- The list `extract` returns: the rows on success, `[]` on either failure
(both `except` branches return `[]`). -/
def extractResult : ExtractOutcome → List RawRecord
  | .ok rows => rows
  | .fileNotFound => []
  | .otherError => []

/-- Observable effects of one `main` run: which stages ran and whether the
output file was written. -/
structure RunResult where
  transformCalled : Bool
  loadCalled : Bool
  outputWritten : Bool
deriving DecidableEq

/-- `main`'s control flow: extract; if the result is empty, report failure
and return before transform and load; otherwise transform and load.
`writeOk` is whether the output write raises (`load` writes the file iff it
does not). -/
def mainModel (outcome : ExtractOutcome) (writeOk : Bool) : RunResult :=
  let transactions := extractResult outcome
  if transactions = [] then ⟨false, false, false⟩
  else
    match transform transactions with
    | .empty => ⟨true, false, false⟩
    | .ok _ _ => ⟨true, true, writeOk⟩

/-- The distinct keys of `keys` in the order each is first encountered
(the key order of a Python dict filled by iterating `keys`). -/
def firstSeenOrder (keys : List String) : List String :=
  keys.foldl (fun acc k => if k ∈ acc then acc else acc ++ [k]) []

/-- First-match lookup of a count in an association list (0 if absent). -/
def countVal : List (String × Nat) → String → Nat
  | [], _ => 0
  | (k', n) :: rest, k => if k' = k then n else countVal rest k

/-- Number of characters strictly after the last `.` of a string (the
decimal places of a formatted number). -/
def decimalsAfter (s : String) : Nat :=
  (s.data.reverse.takeWhile (fun c => c != '.')).length

/-- What the spec requires of a top-5 table built from occurrence counts of
`keys`: at most five entries; every entry is a real key with its true
occurrence count; counts are descending; ties are ordered by first
encounter; no excluded key has a larger count than an included one; and if
fewer than five distinct keys exist, all appear. -/
def TopFiveSpec (keys : List String) (top : List (String × Nat)) : Prop :=
  top.length ≤ 5 ∧
  (∀ p ∈ top, p.1 ∈ firstSeenOrder keys ∧ p.2 = keys.count p.1) ∧
  top.Pairwise (fun a b => b.2 ≤ a.2) ∧
  (∀ a b : String × Nat, [a, b].Sublist top → a.2 = b.2 →
    [a.1, b.1].Sublist (firstSeenOrder keys)) ∧
  (∀ k ∈ firstSeenOrder keys, (∀ p ∈ top, p.1 ≠ k) → ∀ q ∈ top, keys.count k ≤ q.2) ∧
  ((firstSeenOrder keys).length < 5 → ∀ k ∈ firstSeenOrder keys, ∃ q ∈ top, q.1 = k)

/-- The field ranges guaranteed by a successful `strptime` (regex ranges
plus `datetime` construction checks). -/
def ValidDT (dt : DateTime) : Prop :=
  1 ≤ dt.year ∧ dt.year ≤ 9999 ∧
  1 ≤ dt.month ∧ dt.month ≤ 12 ∧
  1 ≤ dt.day ∧ dt.day ≤ daysInMonth dt.year dt.month ∧
  dt.hour ≤ 23 ∧ dt.minute ≤ 59 ∧ dt.second ≤ 59

/-! ### Concrete run used by the witnesses

The three-row scenario from the specification: two valid timestamps, one
invalid, a repeated sender, and repeated amounts. -/

/-- First scenario row. -/
def wRec1 : RawRecord := ⟨"A", "B", 10, "2023-01-02 10:00:00"⟩

/-- Second scenario row. -/
def wRec2 : RawRecord := ⟨"A", "C", 5, "2023-01-02 11:00:00"⟩

/-- Third scenario row (invalid timestamp). -/
def wRec3 : RawRecord := ⟨"B", "A", 10, "bad-timestamp"⟩

/-- The scenario input. -/
def wInput : List RawRecord := [wRec1, wRec2, wRec3]

/-- The enriched records `transform` produces for `wInput`. -/
def wEnriched : List EnrichedRecord :=
  [⟨"A", "B", 10, "2023-01-02 10:00:00", "$10.00", "2023-01-02", "10:00:00", "Monday"⟩,
   ⟨"A", "C", 5, "2023-01-02 11:00:00", "$5.00", "2023-01-02", "11:00:00", "Monday"⟩,
   ⟨"B", "A", 10, "bad-timestamp", "$10.00", "Unknown", "Unknown", "Unknown"⟩]

/-- The summary `transform` produces for `wInput`. -/
def wSummary : Summary :=
  ⟨3, 25, 25 / 3, [("A", 2), ("B", 1)], [("B", 1), ("C", 1), ("A", 1)]⟩

/-! ### Lemmas about the transform loop -/

theorem foldl_step_transformed (ts : List RawRecord) (st : TState) :
    (ts.foldl step st).transformed = st.transformed ++ ts.map enrich := by
  induction ts generalizing st with
  | nil => simp
  | cons t ts ih => simp [ih, step]

theorem foldl_step_total (ts : List RawRecord) (st : TState) :
    (ts.foldl step st).total_amount = st.total_amount + (ts.map (·.amount)).sum := by
  induction ts generalizing st with
  | nil => simp
  | cons t ts ih => simp [ih, step]; ring

theorem foldl_step_senders (ts : List RawRecord) (st : TState) :
    (ts.foldl step st).sender_counts = (ts.map (·.sender)).foldl bump st.sender_counts := by
  induction ts generalizing st with
  | nil => simp
  | cons t ts ih => simp [ih, step]

theorem foldl_step_recipients (ts : List RawRecord) (st : TState) :
    (ts.foldl step st).recipient_counts = (ts.map (·.recipient)).foldl bump st.recipient_counts := by
  induction ts generalizing st with
  | nil => simp
  | cons t ts ih => simp [ih, step]

theorem transform_eq_ok (ts : List RawRecord) (h : ts ≠ []) :
    transform ts = .ok (ts.map enrich) (mkSummary (runLoop ts)) := by
  have ht : (runLoop ts).transformed = ts.map enrich := by
    simpa using foldl_step_transformed ts ⟨[], 0, [], []⟩
  simp [transform, h, runLoop] at ht ⊢
  exact ht

theorem transform_ok_inv (ts : List RawRecord) (l : List EnrichedRecord) (s : Summary)
    (h : transform ts = .ok l s) :
    ts ≠ [] ∧ l = ts.map enrich ∧ s = mkSummary (runLoop ts) := by
  rcases eq_or_ne ts [] with rfl | hne
  · simp [transform] at h
  · have := transform_eq_ok ts hne
    rw [this] at h
    refine ⟨hne, ?_, ?_⟩ <;> cases h <;> rfl

/-! ### Lemmas about count accumulation -/

theorem countVal_bump (c : List (String × Nat)) (k' k : String) :
    countVal (bump c k') k = countVal c k + (if k' = k then 1 else 0) := by
  induction c with
  | nil => by_cases h : k' = k <;> simp [bump, countVal, h]
  | cons p rest ih =>
      obtain ⟨a, n⟩ := p
      by_cases h1 : a = k'
      · subst h1
        by_cases h2 : a = k <;> simp [bump, countVal, h2]
      · by_cases h2 : a = k
        · subst h2
          have hk : ¬ k' = a := fun hh => h1 hh.symm
          simp [bump, countVal, h1, hk]
        · simp [bump, countVal, h1, h2, ih]

theorem countVal_foldl_bump (ks : List String) (c : List (String × Nat)) (k : String) :
    countVal (ks.foldl bump c) k = countVal c k + ks.count k := by
  induction ks generalizing c with
  | nil => simp
  | cons k' ks ih =>
      rw [List.foldl_cons, ih, countVal_bump, List.count_cons]
      simp only [beq_iff_eq]
      by_cases h : k' = k
      · subst h; simp; omega
      · have h2 : ¬ k = k' := fun hh => h hh.symm
        simp [h, h2]

theorem countVal_runLoop_senders (ts : List RawRecord) (k : String) :
    countVal (runLoop ts).sender_counts k = (ts.map (·.sender)).count k := by
  rw [runLoop, foldl_step_senders]
  simpa [countVal] using countVal_foldl_bump (ts.map (·.sender)) [] k

theorem countVal_runLoop_recipients (ts : List RawRecord) (k : String) :
    countVal (runLoop ts).recipient_counts k = (ts.map (·.recipient)).count k := by
  rw [runLoop, foldl_step_recipients]
  simpa [countVal] using countVal_foldl_bump (ts.map (·.recipient)) [] k

/-! ### Claim theorems -/

/-- Claim C1: for every non-empty input, `transform` returns the enriched
records in the same order and of the same length as the input. -/
theorem transform_preserves_length_and_order (ts : List RawRecord) (h : ts ≠ []) :
    transform ts = .ok (ts.map enrich) (mkSummary (runLoop ts)) ∧
    (ts.map enrich).length = ts.length :=
  ⟨transform_eq_ok ts h, by simp⟩

/-- Witness for C1: the scenario input is non-empty and `transform` maps
`enrich` over it in order. -/
theorem transform_preserves_length_and_order_witness :
    transform wInput = .ok (wInput.map enrich) (mkSummary (runLoop wInput)) ∧
    (wInput.map enrich).length = wInput.length :=
  transform_preserves_length_and_order wInput (by decide)

/-- Claim C5: the summary's `total_amount` is the exact sum of all amounts
and `average_amount` is `total_amount` divided by the record count. -/
theorem summary_total_and_average (ts : List RawRecord) (l : List EnrichedRecord) (s : Summary)
    (h : transform ts = .ok l s) :
    s.total_amount = (ts.map (·.amount)).sum ∧
    s.total_transactions = ts.length ∧
    s.average_amount = s.total_amount / (s.total_transactions : ℚ) := by
  obtain ⟨hne, -, hs⟩ := transform_ok_inv ts l s h
  have ht : (runLoop ts).transformed = ts.map enrich := by
    simpa using foldl_step_transformed ts ⟨[], 0, [], []⟩
  have htot : (runLoop ts).total_amount = (ts.map (·.amount)).sum := by
    simpa using foldl_step_total ts ⟨[], 0, [], []⟩
  have hne' : (runLoop ts).transformed ≠ [] := by
    rw [ht]; simpa using hne
  subst hs
  refine ⟨htot, by simp [mkSummary, ht], ?_⟩
  simp [mkSummary, hne']

/-- Witness for C5 on the scenario input: total 25, average 25/3. -/
theorem summary_total_and_average_witness :
    wSummary.total_amount = (wInput.map (·.amount)).sum ∧
    wSummary.total_transactions = wInput.length ∧
    wSummary.average_amount = wSummary.total_amount / (wSummary.total_transactions : ℚ) :=
  summary_total_and_average wInput wEnriched wSummary (by decide)

/-- Claim C6: on empty input `transform` returns the bare empty result, not
an (empty list, summary) pair. -/
theorem transform_empty_input : transform [] = TransformResult.empty := by decide

/-- Claim C7: whenever extraction yields an empty list (missing file, other
extraction error, or zero rows), `main` stops after extraction: transform
and load never run and no output file is written. -/
theorem halt_after_empty_extraction (o : ExtractOutcome) (w : Bool)
    (h : extractResult o = []) :
    mainModel o w = ⟨false, false, false⟩ := by
  simp [mainModel, h]

/-- Witness for C7: a missing input file yields an empty extraction and a
run in which nothing after extraction happens. -/
theorem halt_after_empty_extraction_witness :
    mainModel ExtractOutcome.fileNotFound true = ⟨false, false, false⟩ :=
  halt_after_empty_extraction ExtractOutcome.fileNotFound true (by decide)

/-- Claim C8: enrichment leaves the original four fields unchanged. -/
theorem enrich_preserves_original_fields (t : RawRecord) :
    (enrich t).sender = t.sender ∧ (enrich t).recipient = t.recipient ∧
    (enrich t).amount = t.amount ∧ (enrich t).timestamp = t.timestamp := by
  cases h : strptimeTs t.timestamp <;> simp [enrich, h]

/-- Witness for C8 at the first scenario record. -/
theorem enrich_preserves_original_fields_witness :
    (enrich wRec1).sender = wRec1.sender ∧ (enrich wRec1).recipient = wRec1.recipient ∧
    (enrich wRec1).amount = wRec1.amount ∧ (enrich wRec1).timestamp = wRec1.timestamp :=
  enrich_preserves_original_fields wRec1

/-- Claim C10: whenever a summary is constructed the divisor is positive:
the empty-input case returns first, so the `else 0` guard of the average is
never taken and the division is by a positive count. -/
theorem average_never_divides_by_zero (ts : List RawRecord) (l : List EnrichedRecord) (s : Summary)
    (h : transform ts = .ok l s) :
    l ≠ [] ∧ 0 < s.total_transactions ∧
    s.average_amount = s.total_amount / (s.total_transactions : ℚ) := by
  obtain ⟨hne, hl, hs⟩ := transform_ok_inv ts l s h
  have ht : (runLoop ts).transformed = ts.map enrich := by
    simpa using foldl_step_transformed ts ⟨[], 0, [], []⟩
  have hlne : l ≠ [] := by
    rw [hl]; simpa using hne
  have hne' : (runLoop ts).transformed ≠ [] := by
    rw [ht]; simpa using hne
  subst hs
  refine ⟨hlne, ?_, ?_⟩
  · simp [mkSummary, ht]
    exact List.length_pos.mpr hne
  · simp [mkSummary, hne']

/-- Witness for C10 on the scenario input. -/
theorem average_never_divides_by_zero_witness :
    wEnriched ≠ [] ∧ 0 < wSummary.total_transactions ∧
    wSummary.average_amount = wSummary.total_amount / (wSummary.total_transactions : ℚ) :=
  average_never_divides_by_zero wInput wEnriched wSummary (by decide)

/-! ### Lemmas about digit characters -/

theorem digitVal_le_of_isDigit (c : Char) (h : c.isDigit = true) : digitVal c ≤ 9 := by
  rw [Char.isDigit] at h
  simp only [Bool.and_eq_true, decide_eq_true_eq] at h
  obtain ⟨h1, h2⟩ := h
  have : c.val.toNat ≤ 57 := by
    rw [UInt32.le_def] at h2
    exact h2
  simp only [digitVal, Char.toNat]
  omega

theorem isDigit_digitChar10 (d : Nat) (h : d ≤ 9) : (digitChar10 d).isDigit = true := by
  interval_cases d <;> decide

theorem digitVal_digitChar10 (d : Nat) (h : d ≤ 9) : digitVal (digitChar10 d) = d := by
  interval_cases d <;> decide

theorem not_space_digitChar10 (d : Nat) (h : d ≤ 9) : isPySpace (digitChar10 d) = false := by
  interval_cases d <;> decide

/-! ### The canonical timestamp format parses back to the same value -/

theorem parseYear_pad4 (y : Nat) (hy : y ≤ 9999) (rest : List Char) :
    parseYear (pad4 y ++ rest) = some (y, rest) := by
  have h1 : y / 1000 ≤ 9 := by omega
  have h2 : y / 100 % 10 ≤ 9 := by omega
  have h3 : y / 10 % 10 ≤ 9 := by omega
  have h4 : y % 10 ≤ 9 := by omega
  show parseYear (digitChar10 (y / 1000) :: digitChar10 (y / 100 % 10) ::
      digitChar10 (y / 10 % 10) :: digitChar10 (y % 10) :: rest) = some (y, rest)
  rw [parseYear, isDigit_digitChar10 _ h1, isDigit_digitChar10 _ h2,
    isDigit_digitChar10 _ h3, isDigit_digitChar10 _ h4]
  simp [digitVal_digitChar10 _ h1, digitVal_digitChar10 _ h2,
    digitVal_digitChar10 _ h3, digitVal_digitChar10 _ h4]
  omega

theorem parseNum2_twoDig (lo hi v : Nat) (hv : v ≤ 99) (hlo : lo ≤ v) (hhi : v ≤ hi)
    (rest : List Char) (hrest : headIsDigit rest = false) :
    parseNum2 lo hi (twoDigChars v ++ rest) = some (v, rest) := by
  have h1 : v / 10 ≤ 9 := by omega
  have h2 : v % 10 ≤ 9 := by omega
  show parseNum2 lo hi (digitChar10 (v / 10) :: digitChar10 (v % 10) :: rest) = some (v, rest)
  rw [parseNum2, isDigit_digitChar10 _ h1, isDigit_digitChar10 _ h2, hrest]
  simp [digitVal_digitChar10 _ h1, digitVal_digitChar10 _ h2]
  have hv' : 10 * (v / 10) + v % 10 = v := by omega
  rw [hv']
  simp [hlo, hhi]

theorem expectChar_cons (c : Char) (rest : List Char) :
    expectChar c (c :: rest) = some rest := by
  simp [expectChar]

theorem skipSpaces1_single (c : Char) (l : List Char) (hc : isPySpace c = false) :
    skipSpaces1 (' ' :: c :: l) = some (c :: l) := by
  have hsp : isPySpace ' ' = true := by decide
  simp [skipSpaces1, skipSpaces, hsp, hc]

theorem daysInMonth_le_31 (y m : Nat) : daysInMonth y m ≤ 31 := by
  rw [daysInMonth]
  split
  · split <;> omega
  · split <;> omega

theorem skipSpaces1_twoDig (v : Nat) (hv : v ≤ 99) (l : List Char) :
    skipSpaces1 (' ' :: (twoDigChars v ++ l)) = some (twoDigChars v ++ l) :=
  skipSpaces1_single _ _ (not_space_digitChar10 _ (by omega))

theorem parseNum2_twoDig_nil (lo hi v : Nat) (hv : v ≤ 99) (hlo : lo ≤ v) (hhi : v ≤ hi) :
    parseNum2 lo hi (twoDigChars v) = some (v, []) := by
  simpa using parseNum2_twoDig lo hi v hv hlo hhi [] (by decide)

theorem strptimeTs_canonical (dt : DateTime) (hv : ValidDT dt) :
    strptimeTs ⟨pad4 dt.year ++ '-' :: (twoDigChars dt.month ++ '-' :: (twoDigChars dt.day ++
      ' ' :: (twoDigChars dt.hour ++ ':' :: (twoDigChars dt.minute ++ ':' ::
        twoDigChars dt.second))))⟩ = some dt := by
  obtain ⟨hy1, hy2, hm1, hm2, hd1, hd2, hh, hmi, hs⟩ := hv
  have hd31 : dt.day ≤ 31 := le_trans hd2 (daysInMonth_le_31 dt.year dt.month)
  have hdash : ∀ l : List Char, headIsDigit ('-' :: l) = false := fun _ => rfl
  have hcolon : ∀ l : List Char, headIsDigit (':' :: l) = false := fun _ => rfl
  have hspace : ∀ l : List Char, headIsDigit (' ' :: l) = false := fun _ => rfl
  rw [strptimeTs]
  simp only [Option.bind_eq_bind, parseYear_pad4 dt.year hy2, Option.some_bind,
    expectChar_cons,
    parseNum2_twoDig 1 12 dt.month (by omega) hm1 hm2,
    parseNum2_twoDig 1 31 dt.day (by omega) hd1 hd31,
    skipSpaces1_twoDig dt.hour (by omega),
    parseNum2_twoDig 0 23 dt.hour (by omega) (by omega) hh,
    parseNum2_twoDig 0 59 dt.minute (by omega) (by omega) hmi,
    parseNum2_twoDig_nil 0 61 dt.second (by omega) (by omega) (by omega),
    hdash, hcolon, hspace]
  simp [hy1, hd2, hs]

/-! ### Successful parses only produce in-range field values -/

theorem parseYear_le (cs : List Char) (p : Nat × List Char) (h : parseYear cs = some p) :
    p.1 ≤ 9999 := by
  unfold parseYear at h
  split at h
  · rename_i c1 c2 c3 c4 rest
    split at h
    · rename_i hcond
      simp only [Bool.and_eq_true] at hcond
      obtain ⟨⟨⟨hc1, hc2⟩, hc3⟩, hc4⟩ := hcond
      have b1 := digitVal_le_of_isDigit c1 hc1
      have b2 := digitVal_le_of_isDigit c2 hc2
      have b3 := digitVal_le_of_isDigit c3 hc3
      have b4 := digitVal_le_of_isDigit c4 hc4
      cases h
      simp
      omega
    · cases h
  · cases h

theorem parseNum2_le (lo hi : Nat) (cs : List Char) (p : Nat × List Char)
    (h : parseNum2 lo hi cs = some p) : lo ≤ p.1 ∧ p.1 ≤ max 9 hi := by
  unfold parseNum2 at h
  split at h
  · cases h
  · rename_i c1
    split at h
    · rename_i hcond
      simp only [Bool.and_eq_true, decide_eq_true_eq] at hcond
      obtain ⟨hc1, hlo⟩ := hcond
      have b1 := digitVal_le_of_isDigit c1 hc1
      cases h
      simp
      omega
    · cases h
  · rename_i c1 c2 rest
    split at h
    · rename_i hc1
      split at h
      · split at h
        · cases h
        · split at h
          · rename_i hcond
            cases h
            simp
            omega
          · cases h
      · split at h
        · rename_i hlo
          have b1 := digitVal_le_of_isDigit c1 hc1
          cases h
          simp
          omega
        · cases h
    · cases h

theorem strptimeTs_valid (s : String) (dt : DateTime) (h : strptimeTs s = some dt) :
    ValidDT dt := by
  rw [strptimeTs] at h
  simp only [Option.bind_eq_bind, Option.bind_eq_some] at h
  obtain ⟨py, hpy, cs1, hcs1, pm, hpm, cs2, hcs2, pd, hpd, cs3, hcs3, ph, hph,
    cs4, hcs4, pmi, hpmi, cs5, hcs5, ps, hps, h⟩ := h
  have hy := parseYear_le _ _ hpy
  have hm := parseNum2_le _ _ _ _ hpm
  have hd := parseNum2_le _ _ _ _ hpd
  have hh := parseNum2_le _ _ _ _ hph
  have hmi := parseNum2_le _ _ _ _ hpmi
  have hs := parseNum2_le _ _ _ _ hps
  split at h
  · rename_i hcond
    obtain ⟨-, hy1, hday, hsec⟩ := hcond
    cases h
    unfold ValidDT
    dsimp only
    refine ⟨?_, ?_, ?_, ?_, ?_, ?_, ?_, ?_, ?_⟩ <;> omega
  · cases h

theorem string_mk_append (a b : List Char) : String.mk a ++ String.mk b = String.mk (a ++ b) :=
  rfl

/-- Claim C3: for a record whose timestamp parses successfully, recombining
the derived fields as "date time" and parsing that under the same pattern
reconstructs exactly the originally parsed timestamp. -/
theorem timestamp_roundtrip (t : RawRecord) (dt : DateTime)
    (h : strptimeTs t.timestamp = some dt) :
    strptimeTs ((enrich t).date ++ " " ++ (enrich t).time) = some dt := by
  have hv := strptimeTs_valid t.timestamp dt h
  have hdate : (enrich t).date = fmtDate dt := by simp [enrich, h]
  have htime : (enrich t).time = fmtTime dt := by simp [enrich, h]
  rw [hdate, htime]
  have hstr : fmtDate dt ++ " " ++ fmtTime dt =
      String.mk (pad4 dt.year ++ '-' :: (twoDigChars dt.month ++ '-' :: (twoDigChars dt.day ++
        ' ' :: (twoDigChars dt.hour ++ ':' :: (twoDigChars dt.minute ++ ':' ::
          twoDigChars dt.second))))) := by
    rw [fmtDate, fmtTime]
    rw [show (" " : String) = String.mk [' '] from rfl]
    rw [string_mk_append, string_mk_append]
    congr 1
  rw [hstr]
  exact strptimeTs_canonical dt hv

/-- Witness for C3: the first scenario timestamp parses and round-trips. -/
theorem timestamp_roundtrip_witness :
    strptimeTs ((enrich wRec1).date ++ " " ++ (enrich wRec1).time) =
      some ⟨2023, 1, 2, 10, 0, 0⟩ :=
  timestamp_roundtrip wRec1 ⟨2023, 1, 2, 10, 0, 0⟩ (by decide)

/-! ### Lemmas about the currency formatting -/

theorem natDigitsFuel_mem (fuel n : Nat) (c : Char) (h : c ∈ natDigitsFuel fuel n) :
    ∃ d, d ≤ 9 ∧ c = digitChar10 d := by
  induction fuel generalizing n with
  | zero => simp [natDigitsFuel] at h
  | succ fuel ih =>
      rw [natDigitsFuel] at h
      by_cases hn : n < 10
      · simp [hn] at h
        exact ⟨n, by omega, h⟩
      · simp [hn] at h
        rcases h with h | h
        · exact ih _ h
        · exact ⟨n % 10, by omega, h⟩

theorem digitChar10_ne_dot (d : Nat) (h : d ≤ 9) : (digitChar10 d != '.') = true := by
  interval_cases d <;> decide

theorem takeWhile_stops (p : Char → Bool) (l1 : List Char) (c : Char) (l2 : List Char)
    (h1 : ∀ x ∈ l1, p x = true) (hc : p c = false) :
    (l1 ++ c :: l2).takeWhile p = l1 := by
  induction l1 with
  | nil => simp [List.takeWhile_cons, hc]
  | cons a l ih =>
      have ha : p a = true := h1 a (by simp)
      simp [List.takeWhile_cons, ha]
      exact ih fun x hx => h1 x (by simp [hx])

theorem decimalsAfter_formatFixed2 (q : ℚ) : decimalsAfter (formatFixed2 q) = 2 := by
  have key : ∀ n : Nat,
      ((natDigits (n / 100) ++ '.' :: twoDigChars (n % 100)).reverse.takeWhile
        (fun c => c != '.')).length = 2 := by
    intro n
    have hd1 : (n % 100) / 10 ≤ 9 := by omega
    have hd2 : (n % 100) % 10 ≤ 9 := by omega
    have hrev : (natDigits (n / 100) ++ '.' :: twoDigChars (n % 100)).reverse =
        [digitChar10 ((n % 100) % 10), digitChar10 ((n % 100) / 10)] ++
          '.' :: (natDigits (n / 100)).reverse := by
      simp [twoDigChars]
    rw [hrev, takeWhile_stops]
    · rfl
    · intro x hx
      simp at hx
      rcases hx with rfl | rfl
      · exact digitChar10_ne_dot _ hd2
      · exact digitChar10_ne_dot _ hd1
    · rfl
  rw [formatFixed2, decimalsAfter]
  by_cases hq : q < 0
  · simp only [hq, if_pos]
    simpa [List.takeWhile_append] using key ((roundHalfEven (|q| * 100)).toNat)
  · simp only [hq, if_neg, not_false_iff]
    exact key ((roundHalfEven (|q| * 100)).toNat)

/-- Claim C9: `amount_usd` is the amount formatted with exactly two decimal
places behind a dollar prefix; e.g. amount 1234.5 is rendered "$1234.50". -/
theorem amount_usd_currency_format :
    (∀ t : RawRecord, (enrich t).amount_usd = "$" ++ formatFixed2 t.amount ∧
      decimalsAfter (formatFixed2 t.amount) = 2) ∧
    formatFixed2 ((2469 : ℚ) / 2) = "1234.50" := by
  refine ⟨fun t => ⟨?_, decimalsAfter_formatFixed2 t.amount⟩, by decide⟩
  cases h : strptimeTs t.timestamp <;> simp [enrich, h]

/-- Witness for C9 at the first scenario record. -/
theorem amount_usd_currency_format_witness :
    (enrich wRec1).amount_usd = "$" ++ formatFixed2 wRec1.amount ∧
    decimalsAfter (formatFixed2 wRec1.amount) = 2 ∧
    formatFixed2 ((2469 : ℚ) / 2) = "1234.50" :=
  ⟨(amount_usd_currency_format.1 wRec1).1, (amount_usd_currency_format.1 wRec1).2,
    amount_usd_currency_format.2⟩

/-- Claim C4: a record whose timestamp fails to parse gets all three derived
fields set to "Unknown", is still in the output, and is still counted in the
total and in the sender/recipient occurrence counts. -/
theorem invalid_timestamp_unknown_and_counted (ts : List RawRecord) (t : RawRecord)
    (l : List EnrichedRecord) (s : Summary)
    (hmem : t ∈ ts) (hbad : strptimeTs t.timestamp = none) (h : transform ts = .ok l s) :
    (enrich t).date = "Unknown" ∧ (enrich t).time = "Unknown" ∧
    (enrich t).day_of_week = "Unknown" ∧
    enrich t ∈ l ∧
    s.total_amount = (ts.map (·.amount)).sum ∧
    countVal (runLoop ts).sender_counts t.sender = (ts.map (·.sender)).count t.sender ∧
    0 < countVal (runLoop ts).sender_counts t.sender ∧
    countVal (runLoop ts).recipient_counts t.recipient = (ts.map (·.recipient)).count t.recipient ∧
    0 < countVal (runLoop ts).recipient_counts t.recipient := by
  obtain ⟨hne, hl, hs⟩ := transform_ok_inv ts l s h
  have htot := (summary_total_and_average ts l s h).1
  refine ⟨by simp [enrich, hbad], by simp [enrich, hbad], by simp [enrich, hbad], ?_, htot,
    countVal_runLoop_senders ts t.sender, ?_, countVal_runLoop_recipients ts t.recipient, ?_⟩
  · rw [hl]; exact List.mem_map_of_mem enrich hmem
  · rw [countVal_runLoop_senders]
    exact List.count_pos_iff.mpr (List.mem_map_of_mem _ hmem)
  · rw [countVal_runLoop_recipients]
    exact List.count_pos_iff.mpr (List.mem_map_of_mem _ hmem)

/-! ### Lemmas about key order and the top-five selection -/

theorem bump_map_fst (c : List (String × Nat)) (k : String) :
    (bump c k).map Prod.fst =
      if k ∈ c.map Prod.fst then c.map Prod.fst else c.map Prod.fst ++ [k] := by
  induction c with
  | nil => simp [bump]
  | cons p rest ih =>
      obtain ⟨a, n⟩ := p
      by_cases h : a = k
      · subst h
        simp [bump]
      · have hne : k ≠ a := fun hh => h hh.symm
        simp only [bump, if_neg h, List.map_cons]
        rw [ih]
        by_cases hk : k ∈ rest.map Prod.fst
        · simp [hk, hne]
        · simp [hk, hne]

theorem foldl_bump_map_fst (ks : List String) (c : List (String × Nat)) :
    (ks.foldl bump c).map Prod.fst =
      ks.foldl (fun acc k => if k ∈ acc then acc else acc ++ [k]) (c.map Prod.fst) := by
  induction ks generalizing c with
  | nil => simp
  | cons k ks ih =>
      simp only [List.foldl_cons]
      rw [ih, bump_map_fst]

theorem counts_map_fst (ks : List String) :
    (ks.foldl bump []).map Prod.fst = firstSeenOrder ks := by
  rw [foldl_bump_map_fst, firstSeenOrder]
  simp

theorem firstSeen_aux_nodup (ks : List String) (acc : List String) (h : acc.Nodup) :
    (ks.foldl (fun acc k => if k ∈ acc then acc else acc ++ [k]) acc).Nodup := by
  induction ks generalizing acc with
  | nil => simpa
  | cons k ks ih =>
      simp only [List.foldl_cons]
      by_cases hk : k ∈ acc
      · rw [if_pos hk]
        exact ih acc h
      · rw [if_neg hk]
        refine ih _ ?_
        simp [List.nodup_append, h, hk]

theorem firstSeenOrder_nodup (ks : List String) : (firstSeenOrder ks).Nodup :=
  firstSeen_aux_nodup ks [] (by simp)

theorem countVal_mem (c : List (String × Nat)) (k : String) (h : k ∈ c.map Prod.fst) :
    (k, countVal c k) ∈ c := by
  induction c with
  | nil => simp at h
  | cons p rest ih =>
      obtain ⟨a, n⟩ := p
      by_cases ha : a = k
      · subst ha
        simp [countVal]
      · have hk : k ∈ rest.map Prod.fst := by
          rcases List.mem_map.mp h with ⟨q, hq, hqk⟩
          rcases List.mem_cons.mp hq with rfl | hq'
          · exact absurd hqk ha
          · exact List.mem_map.mpr ⟨q, hq', hqk⟩
        simp only [countVal, if_neg ha]
        exact List.mem_cons_of_mem _ (ih hk)

theorem mem_countVal (c : List (String × Nat)) (p : String × Nat)
    (hnd : (c.map Prod.fst).Nodup) (hp : p ∈ c) : p.2 = countVal c p.1 := by
  induction c with
  | nil => simp at hp
  | cons q rest ih =>
      obtain ⟨a, n⟩ := q
      simp only [List.map_cons, List.nodup_cons] at hnd
      obtain ⟨hna, hnd'⟩ := hnd
      rcases List.mem_cons.mp hp with rfl | hp'
      · simp [countVal]
      · have ha : a ≠ p.1 := by
          intro hh
          exact hna (hh ▸ List.mem_map.mpr ⟨p, hp', rfl⟩)
        simp only [countVal, if_neg ha]
        exact ih hnd' hp'

theorem two_mem_sublist {α : Type} (l : List α) (a b : α) (ha : a ∈ l) (hb : b ∈ l)
    (hne : a ≠ b) : [a, b].Sublist l ∨ [b, a].Sublist l := by
  induction l with
  | nil => simp at ha
  | cons x xs ih =>
      rcases List.mem_cons.mp ha with rfl | ha'
      · have hb' : b ∈ xs := by
          rcases List.mem_cons.mp hb with rfl | h
          · exact absurd rfl hne
          · exact h
        exact Or.inl ((List.singleton_sublist.mpr hb').cons₂ _)
      · rcases List.mem_cons.mp hb with rfl | hb'
        · exact Or.inr ((List.singleton_sublist.mpr ha').cons₂ _)
        · rcases ih ha' hb' with h | h
          · exact Or.inl (h.cons _)
          · exact Or.inr (h.cons _)

theorem pair_sublist_antisymm {α : Type} (l : List α) (hnd : l.Nodup) (a b : α) (hne : a ≠ b)
    (h1 : [a, b].Sublist l) (h2 : [b, a].Sublist l) : False := by
  induction l with
  | nil => exact absurd h1 (by simp)
  | cons x xs ih =>
      obtain ⟨hx, hnd'⟩ := List.nodup_cons.mp hnd
      cases h1 with
      | cons _ h1' =>
          cases h2 with
          | cons _ h2' => exact ih hnd' h1' h2'
          | cons₂ _ h2' =>
              exact hx (List.singleton_sublist.mp ((List.sublist_cons_self a [b]).trans h1'))
      | cons₂ _ h1' =>
          cases h2 with
          | cons _ h2' =>
              exact hx (List.singleton_sublist.mp ((List.sublist_cons_self b [a]).trans h2'))
          | cons₂ _ h2' => exact hne rfl

theorem topFiveSpec_of_foldl_bump (ks : List String) :
    TopFiveSpec ks ((sortedDesc (ks.foldl bump [])).take 5) := by
  have hkeys : (ks.foldl bump []).map Prod.fst = firstSeenOrder ks := counts_map_fst ks
  have hnodk : ((ks.foldl bump []).map Prod.fst).Nodup := by
    rw [hkeys]
    exact firstSeenOrder_nodup ks
  have hndc : (ks.foldl bump []).Nodup := hnodk.of_map Prod.fst
  have hcv : ∀ k, countVal (ks.foldl bump []) k = ks.count k := by
    intro k
    simpa [countVal] using countVal_foldl_bump ks [] k
  have hperm : List.Perm (sortedDesc (ks.foldl bump [])) (ks.foldl bump []) :=
    List.perm_insertionSort countGe _
  have hsorted : (sortedDesc (ks.foldl bump [])).Pairwise countGe :=
    List.sorted_insertionSort countGe _
  have hnds : (sortedDesc (ks.foldl bump [])).Nodup := hperm.nodup_iff.mpr hndc
  have htop_sub : ((sortedDesc (ks.foldl bump [])).take 5).Sublist (sortedDesc (ks.foldl bump [])) :=
    List.take_sublist 5 _
  have hmem_counts : ∀ p, p ∈ (sortedDesc (ks.foldl bump [])).take 5 → p ∈ ks.foldl bump [] :=
    fun p hp => hperm.mem_iff.mp (htop_sub.subset hp)
  refine ⟨?_, ?_, ?_, ?_, ?_, ?_⟩
  · simp [List.length_take]
  · intro p hp
    have hc := hmem_counts p hp
    refine ⟨?_, ?_⟩
    · rw [← hkeys]
      exact List.mem_map_of_mem Prod.fst hc
    · rw [mem_countVal _ p hnodk hc, hcv]
  · exact hsorted.sublist htop_sub
  · intro a b hab heq
    have hab' : [a, b].Sublist (sortedDesc (ks.foldl bump [])) := hab.trans htop_sub
    have ha : a ∈ ks.foldl bump [] := hmem_counts a (hab.subset (by simp))
    have hb : b ∈ ks.foldl bump [] := hmem_counts b (hab.subset (by simp))
    have hne : a ≠ b := by
      intro hEq
      subst hEq
      have : ([a, a] : List (String × Nat)).Nodup := hab'.nodup hnds
      simp at this
    rcases two_mem_sublist _ a b ha hb hne with h | h
    · rw [← hkeys]
      exact h.map Prod.fst
    · exfalso
      have hba : [b, a].Sublist (sortedDesc (ks.foldl bump [])) :=
        List.pair_sublist_insertionSort (le_of_eq heq) h
      exact pair_sublist_antisymm _ hnds a b hne hab' hba
  · intro k hk hnot q hq
    have hk' : k ∈ (ks.foldl bump []).map Prod.fst := by
      rw [hkeys]
      exact hk
    have hp0 : (k, countVal (ks.foldl bump []) k) ∈ ks.foldl bump [] := countVal_mem _ k hk'
    have hp0s : (k, countVal (ks.foldl bump []) k) ∈ sortedDesc (ks.foldl bump []) :=
      hperm.mem_iff.mpr hp0
    have hp0drop : (k, countVal (ks.foldl bump []) k) ∈ (sortedDesc (ks.foldl bump [])).drop 5 := by
      rcases List.mem_append.mp (by
        rw [List.take_append_drop 5 (sortedDesc (ks.foldl bump []))]
        exact hp0s) with h | h
      · exact absurd rfl (hnot _ h)
      · exact h
    have hpa := List.pairwise_append.mp
      (by rw [List.take_append_drop 5 (sortedDesc (ks.foldl bump []))]; exact hsorted)
    have := hpa.2.2 q hq _ hp0drop
    rw [← hcv k]
    exact this
  · intro hlen k hk
    have hclen : (ks.foldl bump []).length < 5 := by
      have h1 : (ks.foldl bump []).length = (firstSeenOrder ks).length := by
        rw [← hkeys]
        simp
      rw [h1]
      exact hlen
    have hslen : (sortedDesc (ks.foldl bump [])).length ≤ 5 := by
      rw [hperm.length_eq]
      omega
    have htop_all : (sortedDesc (ks.foldl bump [])).take 5 = sortedDesc (ks.foldl bump []) :=
      List.take_of_length_le hslen
    have hk' : k ∈ (ks.foldl bump []).map Prod.fst := by
      rw [hkeys]
      exact hk
    refine ⟨(k, countVal (ks.foldl bump []) k), ?_, rfl⟩
    rw [htop_all]
    exact hperm.mem_iff.mpr (countVal_mem _ k hk')

/-- Claim C2: the top-senders and top-recipients tables have at most five
entries with true occurrence counts, sorted descending with ties in
first-encounter order; no excluded key outcounts an included one, and with
fewer than five distinct keys all appear. -/
theorem top_five_tables_correct (ts : List RawRecord) (l : List EnrichedRecord) (s : Summary)
    (h : transform ts = .ok l s) :
    TopFiveSpec (ts.map (·.sender)) s.top_senders ∧
    TopFiveSpec (ts.map (·.recipient)) s.top_recipients := by
  obtain ⟨-, -, hs⟩ := transform_ok_inv ts l s h
  subst hs
  constructor
  · have hsc : (runLoop ts).sender_counts = (ts.map (·.sender)).foldl bump [] := by
      rw [runLoop, foldl_step_senders]
    simp only [mkSummary, hsc]
    exact topFiveSpec_of_foldl_bump (ts.map (·.sender))
  · have hrc : (runLoop ts).recipient_counts = (ts.map (·.recipient)).foldl bump [] := by
      rw [runLoop, foldl_step_recipients]
    simp only [mkSummary, hrc]
    exact topFiveSpec_of_foldl_bump (ts.map (·.recipient))

/-- Witness for C2 on the scenario input: top_senders is A:2, B:1 and
top_recipients is B:1, C:1, A:1 in first-encounter order. -/
theorem top_five_tables_correct_witness :
    TopFiveSpec (wInput.map (·.sender)) wSummary.top_senders ∧
    TopFiveSpec (wInput.map (·.recipient)) wSummary.top_recipients :=
  top_five_tables_correct wInput wEnriched wSummary (by decide)

/-- Witness for C4: the scenario's third row has an invalid timestamp, is
enriched with "Unknown" fields, and is still counted everywhere. -/
theorem invalid_timestamp_unknown_and_counted_witness :
    (enrich wRec3).date = "Unknown" ∧ (enrich wRec3).time = "Unknown" ∧
    (enrich wRec3).day_of_week = "Unknown" ∧
    enrich wRec3 ∈ wEnriched ∧
    wSummary.total_amount = (wInput.map (·.amount)).sum ∧
    countVal (runLoop wInput).sender_counts wRec3.sender =
      (wInput.map (·.sender)).count wRec3.sender ∧
    0 < countVal (runLoop wInput).sender_counts wRec3.sender ∧
    countVal (runLoop wInput).recipient_counts wRec3.recipient =
      (wInput.map (·.recipient)).count wRec3.recipient ∧
    0 < countVal (runLoop wInput).recipient_counts wRec3.recipient :=
  invalid_timestamp_unknown_and_counted wInput wRec3 wEnriched wSummary
    (by decide) (by decide) (by decide)

end ETL
